import Mathlib

/-!
Verification of the batching logic of the uniem repository.

The embedding below follows two source files:

* `uniem/data.py`: `PairRecord` / `TripletRecord` consumers `MediDataset` and
  `M3EDataset`, whose `create_or_refresh_data` methods partition per-task
  record collections into fixed-size, task-pure batches and shuffle the batch
  order, and whose `__getitem__` methods resolve a position to a batch.
* `mteb_zh/models.py`: the `generate_batch` chunking generator.

Randomness in the source comes from `torch.utils.data.RandomSampler`.
With `replacement=False` and `num_samples = k`, that sampler yields the
concatenation of successive fresh permutations of `range(n)` truncated to `k`
elements.  The embedding therefore passes the permutations in explicitly
(`samplerDraws perms k = perms.flatten.take k`) and theorems quantify over every
list of permutations (`ValidPerms`), so every statement holds for every random
outcome the library can produce.
-/

/-- Record shape of `uniem.data_structures.PairRecord`: anchor and positive. -/
structure PairRecord where
  text : String
  text_pos : String
deriving DecidableEq, Inhabited

/-- Record shape of `uniem.data_structures.TripletRecord`. -/
structure TripletRecord where
  text : String
  text_pos : String
  text_neg : String
deriving DecidableEq, Inhabited

/-- A MediDataset record is either a pair or a triplet
(`_task_records_map: dict[str, list[TripletRecord | PairRecord]]`). -/
inductive MediRecord where
  | pair (record : PairRecord)
  | triplet (record : TripletRecord)
deriving DecidableEq, Inhabited

/-- The buffer loop shared by both `create_or_refresh_data` methods
(data.py lines 150-154 and 214-219): append elements to a buffer and emit the
buffer as a batch exactly when it reaches `batch_size`; a leftover buffer
shorter than `batch_size` is discarded. -/
def batchLoop {α : Type} (batch_size : Nat) : List α → List α → List (List α)
  | _, [] => []
  | buffer, x :: xs =>
    if (buffer ++ [x]).length = batch_size then
      (buffer ++ [x]) :: batchLoop batch_size [] xs
    else
      batchLoop batch_size (buffer ++ [x]) xs

/-- Every batch emitted by the buffer loop has length exactly `batch_size`. -/
theorem batchLoop_mem_length {α : Type} (batch_size : Nat) :
    ∀ (xs buffer b : List α), b ∈ batchLoop batch_size buffer xs →
      b.length = batch_size := by
  intro xs
  induction xs with
  | nil => intro buffer b hb; simp [batchLoop] at hb
  | cons x xs ih =>
    intro buffer b hb
    simp only [batchLoop] at hb
    split at hb
    case isTrue h =>
      rcases List.mem_cons.mp hb with h1 | h1
      · rw [h1]; exact h
      · exact ih [] b h1
    case isFalse h => exact ih (buffer ++ [x]) b hb

/-- Every element of a batch emitted by the buffer loop comes from the initial
buffer or from the input stream. -/
theorem batchLoop_mem_of_mem {α : Type} (batch_size : Nat) :
    ∀ (xs buffer b : List α), b ∈ batchLoop batch_size buffer xs →
      ∀ y ∈ b, y ∈ buffer ∨ y ∈ xs := by
  intro xs
  induction xs with
  | nil => intro buffer b hb; simp [batchLoop] at hb
  | cons x xs ih =>
    intro buffer b hb y hy
    simp only [batchLoop] at hb
    split at hb
    case isTrue h =>
      rcases List.mem_cons.mp hb with h1 | h1
      · rw [h1] at hy
        rcases List.mem_append.mp hy with h2 | h2
        · exact Or.inl h2
        · right; simp at h2; simp [h2]
      · rcases ih [] b h1 y hy with h2 | h2
        · simp at h2
        · right; exact List.mem_cons_of_mem _ h2
    case isFalse h =>
      rcases ih (buffer ++ [x]) b hb y hy with h2 | h2
      · rcases List.mem_append.mp h2 with h3 | h3
        · exact Or.inl h3
        · right; simp at h3; simp [h3]
      · right; exact List.mem_cons_of_mem _ h2

/-- When the input length (plus buffer) is a multiple of `batch_size`, the
buffer loop drops nothing: its batches concatenate back to the input. -/
theorem batchLoop_join {α : Type} (batch_size : Nat) (hbs : 0 < batch_size) :
    ∀ (xs buffer : List α), buffer.length < batch_size →
      batch_size ∣ (buffer.length + xs.length) →
      (batchLoop batch_size buffer xs).flatten = buffer ++ xs := by
  intro xs
  induction xs with
  | nil =>
    intro buffer hlt hdvd
    rcases hdvd with ⟨k, hk⟩
    simp only [List.length_nil, Nat.add_zero] at hk
    have hbuf : buffer.length = 0 := by
      rcases k with _ | k
      · simpa using hk
      · have h1 : batch_size ≤ batch_size * (k + 1) :=
          Nat.le_mul_of_pos_right _ (Nat.succ_pos k)
        omega
    have : buffer = [] := List.eq_nil_of_length_eq_zero hbuf
    subst this
    simp [batchLoop]
  | cons x xs ih =>
    intro buffer hlt hdvd
    simp only [batchLoop]
    split
    case isTrue h =>
      simp only [List.length_append, List.length_singleton] at h
      have hx : (batchLoop batch_size [] xs).flatten = [] ++ xs := by
        apply ih
        · simpa using hbs
        · have heq : buffer.length + (x :: xs).length = batch_size + xs.length := by
            simp only [List.length_cons]; omega
          rw [heq] at hdvd
          simpa using (Nat.dvd_add_right (dvd_refl batch_size)).mp hdvd
      simp only [List.flatten_cons, hx, List.nil_append]
      simp
    case isFalse h =>
      have hlen : (buffer ++ [x]).length < batch_size := by
        simp only [List.length_append, List.length_singleton] at h ⊢
        omega
      have hdvd2 : batch_size ∣ ((buffer ++ [x]).length + xs.length) := by
        simp only [List.length_append, List.length_singleton]
        have heq : buffer.length + 1 + xs.length = buffer.length + (x :: xs).length := by
          simp only [List.length_cons]; omega
        rw [heq]
        exact hdvd
      rw [ih (buffer ++ [x]) hlen hdvd2]
      simp

/-- The buffer loop commutes with mapping a function over the stream, because
emission depends only on lengths. -/
theorem batchLoop_map {α β : Type} (f : α → β) (batch_size : Nat) :
    ∀ (xs buffer : List α),
      batchLoop batch_size (buffer.map f) (xs.map f) =
        (batchLoop batch_size buffer xs).map (List.map f) := by
  intro xs
  induction xs with
  | nil => intro buffer; simp [batchLoop]
  | cons x xs ih =>
    intro buffer
    simp only [List.map_cons, batchLoop]
    have hlen : (buffer.map f ++ [f x]).length = (buffer ++ [x]).length := by simp
    by_cases h : (buffer ++ [x]).length = batch_size
    · rw [if_pos (hlen.trans h), if_pos h]
      have : buffer.map f ++ [f x] = (buffer ++ [x]).map f := by simp
      rw [this]
      have h0 : (List.nil : List α).map f = ([] : List β) := rfl
      rw [← h0, ih]
      simp
    · rw [if_neg (fun hc => h (hlen.symm.trans hc)), if_neg h]
      have : buffer.map f ++ [f x] = (buffer ++ [x]).map f := by simp
      rw [this, ih]

/-- The permutations handed to one `RandomSampler` call are all permutations
of `range n`, where `n` is the length of the sampled collection. -/
def ValidPerms (n : Nat) (perms : List (List Nat)) : Prop :=
  ∀ p ∈ perms, List.Perm p (List.range n)

/-- Index stream produced by `RandomSampler(collection, num_samples=k)` with
`replacement=False`: the concatenation of fresh permutations truncated to `k`
draws. -/
def samplerDraws (perms : List (List Nat)) (num_samples : Nat) : List Nat :=
  perms.flatten.take num_samples

/-- Every drawn index is in range of the sampled collection. -/
theorem samplerDraws_lt (n k : Nat) (perms : List (List Nat))
    (hp : ValidPerms n perms) : ∀ i ∈ samplerDraws perms k, i < n := by
  intro i hi
  have hij : i ∈ perms.flatten := List.mem_of_mem_take hi
  rcases List.mem_flatten.mp hij with ⟨p, hp1, hp2⟩
  have hmem : i ∈ List.range n := (hp p hp1).mem_iff.mp hp2
  exact List.mem_range.mp hmem

/-- When the permutations supply enough elements, the sampler yields exactly
`k` draws. -/
theorem samplerDraws_length (k : Nat) (perms : List (List Nat))
    (hk : k ≤ perms.flatten.length) :
    (samplerDraws perms k).length = k := by
  unfold samplerDraws
  rw [List.length_take]
  omega

/-- Coverage: as soon as at least one full permutation is consumed
(`n ≤ k`), every index of the collection occurs among the draws, because the
first permutation visits all of them. -/
theorem samplerDraws_coverage (n k : Nat) (perms : List (List Nat))
    (hp : ValidPerms n perms) (hnk : n ≤ k) (hk : k ≤ perms.flatten.length) :
    ∀ j, j < n → j ∈ samplerDraws perms k := by
  intro j hj
  cases perms with
  | nil => simp at hk; omega
  | cons p rest =>
    have hperm := hp p (List.mem_cons_self p rest)
    have hl : p.length = n := by simpa using hperm.length_eq
    have hjp : j ∈ p := hperm.mem_iff.mpr (List.mem_range.mpr hj)
    unfold samplerDraws
    rw [List.flatten_cons, List.take_append_eq_append_take]
    apply List.mem_append_left
    have : p.take k = p := List.take_of_length_le (by omega)
    rw [this]
    exact hjp

/-- The `num_samples` computation shared by both wrappers (data.py lines
142-144 and 207-209): the largest multiple of `batch_size` at most the
collection length, bumped up by one more `batch_size` when `drop_last` is
false and the length is not an exact multiple. -/
def numSamples (batch_size : Nat) (drop_last : Bool) (n : Nat) : Nat :=
  let base := (n / batch_size) * batch_size
  if !drop_last && n % batch_size != 0 then base + batch_size else base

/-- `batch_size` always divides `num_samples`. -/
theorem numSamples_dvd (batch_size : Nat) (drop_last : Bool) (n : Nat) :
    batch_size ∣ numSamples batch_size drop_last n := by
  unfold numSamples
  split
  · exact dvd_add (dvd_mul_left batch_size (n / batch_size)) dvd_rfl
  · exact dvd_mul_left batch_size (n / batch_size)

/-- With `drop_last = false` and a non-empty collection, `num_samples` is at
least the collection length and positive. -/
theorem numSamples_false_ge (batch_size n : Nat) (hbs : 0 < batch_size)
    (hn : 0 < n) :
    n ≤ numSamples batch_size false n ∧ 0 < numSamples batch_size false n := by
  have h1 := Nat.div_add_mod n batch_size
  have h2 : n % batch_size < batch_size := Nat.mod_lt n hbs
  rw [Nat.mul_comm] at h1
  unfold numSamples
  simp only [Bool.not_false, Bool.true_and]
  by_cases h : n % batch_size = 0
  · have hc : (n % batch_size != 0) = false := by simp [h]
    rw [hc, if_neg Bool.false_ne_true]
    constructor <;> omega
  · have hc : (n % batch_size != 0) = true := by simp [h]
    rw [hc, if_pos rfl]
    constructor <;> omega

/-- A non-empty collection strictly shorter than one batch has
`num_samples = batch_size` in padding mode. -/
theorem numSamples_false_small (batch_size n : Nat) (hn : 0 < n)
    (hlt : n < batch_size) : numSamples batch_size false n = batch_size := by
  unfold numSamples
  have hdiv : n / batch_size = 0 := Nat.div_eq_of_lt hlt
  have hmod : n % batch_size = n := Nat.mod_eq_of_lt hlt
  simp only [Bool.not_false, Bool.true_and, hdiv, hmod, Nat.zero_mul]
  have hne : (n != 0) = true := by simpa using Nat.pos_iff_ne_zero.mp hn
  rw [hne, if_pos rfl]
  simp

/-- In drop mode, `num_samples` is zero exactly when the collection is shorter
than one batch (with a positive batch size). -/
theorem numSamples_true_eq_zero (batch_size n : Nat)
    (hlt : n < batch_size) : numSamples batch_size true n = 0 := by
  unfold numSamples
  simp [Nat.div_eq_of_lt hlt]

/-- Per-collection body of `MediDataset.create_or_refresh_data` (data.py lines
139-154): compute `num_samples`; if it is zero append the entire record list
as one fallback batch; otherwise draw `num_samples` indices, gather the
records and chunk them with the buffer loop. -/
def mediTaskBatches (batch_size : Nat) (drop_last : Bool)
    (records : List MediRecord) (perms : List (List Nat)) :
    List (List MediRecord) :=
  let ns := numSamples batch_size drop_last records.length
  if ns = 0 then [records]
  else
    batchLoop batch_size []
      ((samplerDraws perms ns).map fun i => records.getD i default)

/-- `MediDataset.create_or_refresh_data` (data.py lines 136-155): the batched
records of every task, in task insertion order.  Each task entry is paired
with the permutations consumed by its `RandomSampler` call. -/
def medi_create_or_refresh (batch_size : Nat) (drop_last : Bool)
    (tasks : List ((String × List MediRecord) × List (List Nat))) :
    List (List MediRecord) :=
  (tasks.map fun t => mediTaskBatches batch_size drop_last t.1.2 t.2).flatten

/-- State of a constructed `MediDataset` relevant to lookup: the batch list
and the shuffled order (`random_index_list`, a permutation of the batch
positions). -/
structure MediDataset where
  batch_size : Nat
  drop_last : Bool
  task_records_map : List (String × List MediRecord)
  batched_records : List (List MediRecord)
  random_index_list : List Nat
deriving DecidableEq

/-- `MediDataset.__getitem__` (data.py lines 157-159): indirect through
`random_index_list`, then return the stored batch.  `none` models the Python
`IndexError`. -/
def MediDataset.getItem (st : MediDataset) (index : Nat) :
    Option (List MediRecord) :=
  match st.random_index_list.get? index with
  | none => none
  | some idx => st.batched_records.get? idx

/-- `MediDataset.__len__` (data.py lines 161-162). -/
def MediDataset.len (st : MediDataset) : Nat := st.batched_records.length

/-- A cell of an `HfDataset` row: `is_valid_text` checks
`isinstance(text, str)`, so a cell is a string or some non-string value. -/
inductive CellValue where
  | str (s : String)
  | nonString
deriving DecidableEq, Inhabited

/-- Python `str.strip()` (over the ASCII whitespace characters): drop leading
and trailing whitespace. -/
def pyStrip (s : String) : String :=
  ⟨((s.data.dropWhile Char.isWhitespace).reverse.dropWhile
      Char.isWhitespace).reverse⟩

/-- `M3EDataset.is_valid_text` (data.py lines 197-199): a string that is
non-empty after stripping whitespace (the truthiness of `text.strip()`). -/
def is_valid_text (text : CellValue) : Bool :=
  match text with
  | .str s => pyStrip s != ""
  | .nonString => false

/-- The string content of a cell (only ever read behind `is_valid_text`). -/
def cellStr (text : CellValue) : String :=
  match text with
  | .str s => s
  | .nonString => ""

/-- One row of an `HfDataset` as read by `M3EDataset.__getitem__`
(fields `text` and `text_pos`). -/
structure M3ERow where
  text : CellValue
  text_pos : CellValue
deriving DecidableEq, Inhabited

/-- `M3EHfDatsetWithInfo` (data.py lines 171-175), keeping the source
misspelling: a named tabular dataset plus its instruction string. -/
structure M3EHfDatsetWithInfo where
  hf_dataset : List M3ERow
  name : String
  instruction : String
deriving DecidableEq, Inhabited

/-- `TaskBatchIndex` (data.py lines 165-168). -/
structure TaskBatchIndex where
  name : String
  batch_index : List Nat
deriving DecidableEq, Inhabited

/-- Per-dataset body of `M3EDataset.create_or_refresh_data` (data.py lines
204-219): compute `num_samples`; when it is zero the dataset is skipped
(`continue`); otherwise the drawn indices are chunked into `TaskBatchIndex`
entries tagged with the dataset name. -/
def m3eTaskBatchIndexes (batch_size : Nat) (drop_last : Bool)
    (dataset : M3EHfDatsetWithInfo) (perms : List (List Nat)) :
    List TaskBatchIndex :=
  let ns := numSamples batch_size drop_last dataset.hf_dataset.length
  if ns = 0 then []
  else
    (batchLoop batch_size [] (samplerDraws perms ns)).map
      fun buffer => { name := dataset.name, batch_index := buffer }

/-- `M3EDataset.create_or_refresh_data` (data.py lines 201-220). -/
def m3e_create_or_refresh (batch_size : Nat) (drop_last : Bool)
    (datasets : List (M3EHfDatsetWithInfo × List (List Nat))) :
    List TaskBatchIndex :=
  (datasets.map fun t => m3eTaskBatchIndexes batch_size drop_last t.1 t.2).flatten

/-- Python dict lookup over an association list built by successive
assignment: the last binding of a key wins; `none` models `KeyError`. -/
def dictLookup {α : Type} (pairs : List (String × α)) (key : String) :
    Option α :=
  (pairs.reverse.find? fun p => p.1 == key).map fun p => p.2

/-- `self.name_dataset_map` (data.py line 190). -/
def name_dataset_map (datasets : List M3EHfDatsetWithInfo) :
    List (String × List M3ERow) :=
  datasets.map fun d => (d.name, d.hf_dataset)

/-- `self.task_instruction_map` (data.py lines 191-194): present exactly when
`with_instruction` is set. -/
def task_instruction_map (with_instruction : Bool)
    (datasets : List M3EHfDatsetWithInfo) :
    Option (List (String × String)) :=
  if with_instruction then some (datasets.map fun d => (d.name, d.instruction))
  else none

/-- State of a constructed `M3EDataset`. -/
structure M3EDataset where
  batch_size : Nat
  drop_last : Bool
  m3e_hf_datasets : List M3EHfDatsetWithInfo
  with_instruction : Bool
  task_batch_index_list : List TaskBatchIndex
  random_index_list : List Nat
deriving DecidableEq

/-- Failure modes of `M3EDataset.__getitem__`: the Python `IndexError`
(list subscript out of range), `KeyError` (dict subscript) and the
`ValueError` raised on an empty filtered batch, which carries the offending
raw records in its message. -/
inductive M3EError where
  | indexError
  | keyError
  | emptyBatch (records : List M3ERow)
deriving DecidableEq

/-- `records = [hf_dataset[i] for i in batch_index]` (data.py line 228);
`none` models the `IndexError` on an out-of-range subscript. -/
def gatherRows (rows : List M3ERow) : List Nat → Option (List M3ERow)
  | [] => some []
  | i :: is =>
    match rows.get? i, gatherRows rows is with
    | some r, some rs => some (r :: rs)
    | _, _ => none

/-- The anchor text of one row after the instruction step (data.py lines
231-236): when the instruction map is present, the instruction of the task is
prepended by plain concatenation; `none` models a `KeyError` from
`self.task_instruction_map[task_name]`. -/
def instrAnchor (imap : Option (List (String × String))) (task_name : String)
    (anchor : String) : Option String :=
  match imap with
  | none => some anchor
  | some m => (dictLookup m task_name).map fun ins => ins ++ anchor

/-- The filtering loop of `M3EDataset.__getitem__` (data.py lines 229-237):
keep a row only when both cells are valid, prepend the task instruction
(looked up per row when the instruction map is present) to the anchor text
only.  `none` models a `KeyError` from the instruction lookup. -/
def m3ePairRecords (imap : Option (List (String × String)))
    (task_name : String) : List M3ERow → Option (List PairRecord)
  | [] => some []
  | record :: rest =>
    if is_valid_text record.text && is_valid_text record.text_pos then
      match instrAnchor imap task_name (cellStr record.text) with
      | none => none
      | some text =>
        (m3ePairRecords imap task_name rest).map
          fun tail => { text := text, text_pos := cellStr record.text_pos } :: tail
    else m3ePairRecords imap task_name rest

/-- `M3EDataset.__getitem__` (data.py lines 222-240). -/
def M3EDataset.getItem (st : M3EDataset) (index : Nat) :
    Except M3EError (List PairRecord) :=
  match st.random_index_list.get? index with
  | none => .error .indexError
  | some idx =>
    match st.task_batch_index_list.get? idx with
    | none => .error .indexError
    | some task_batch_index =>
      match dictLookup (name_dataset_map st.m3e_hf_datasets)
          task_batch_index.name with
      | none => .error .keyError
      | some hf_dataset =>
        match gatherRows hf_dataset task_batch_index.batch_index with
        | none => .error .indexError
        | some records =>
          match m3ePairRecords
              (task_instruction_map st.with_instruction st.m3e_hf_datasets)
              task_batch_index.name records with
          | none => .error .keyError
          | some pair_records =>
            if pair_records.isEmpty then .error (.emptyBatch records)
            else .ok pair_records

/-- `M3EDataset.__len__` (data.py lines 242-243). -/
def M3EDataset.len (st : M3EDataset) : Nat := st.task_batch_index_list.length

/-- A successful dict lookup returns a binding present in the association
list. -/
theorem dictLookup_mem {α : Type} (pairs : List (String × α)) (key : String)
    (v : α) (h : dictLookup pairs key = some v) : (key, v) ∈ pairs := by
  unfold dictLookup at h
  cases hf : pairs.reverse.find? fun p => p.1 == key with
  | none => rw [hf] at h; cases h
  | some p =>
    rw [hf] at h
    have hm : p ∈ pairs.reverse := List.mem_of_find?_eq_some hf
    have hk := List.find?_some hf
    have hk2 : p.1 = key := by simpa using hk
    simp only [Option.map_some', Option.some.injEq] at h
    have hpv : (key, v) = p := by
      cases p with
      | mk a b => simp only at hk2 h; rw [hk2, h]
    rw [hpv]
    exact List.mem_reverse.mp hm

/-- A successful name lookup resolves to the dataset field of one of the
stored datasets. -/
theorem name_dataset_map_mem (datasets : List M3EHfDatsetWithInfo)
    (nm : String) (rows : List M3ERow)
    (h : dictLookup (name_dataset_map datasets) nm = some rows) :
    ∃ d ∈ datasets, d.name = nm ∧ d.hf_dataset = rows := by
  have hm := dictLookup_mem _ _ _ h
  unfold name_dataset_map at hm
  rcases List.mem_map.mp hm with ⟨d, hd, hdea⟩
  injection hdea with h1 h2
  exact ⟨d, hd, h1, h2⟩

/-- Rows gathered by `gatherRows` all come from the source dataset. -/
theorem gatherRows_mem (rows : List M3ERow) :
    ∀ (idxs : List Nat) (out : List M3ERow),
      gatherRows rows idxs = some out → ∀ r ∈ out, r ∈ rows := by
  intro idxs
  induction idxs with
  | nil =>
    intro out h r hr
    simp only [gatherRows] at h
    cases h
    simp at hr
  | cons i is ih =>
    intro out h r hr
    simp only [gatherRows] at h
    cases hg : rows.get? i with
    | none => rw [hg] at h; cases h
    | some r0 =>
      rw [hg] at h
      cases hrec : gatherRows rows is with
      | none => rw [hrec] at h; cases h
      | some rs =>
        rw [hrec] at h
        simp only [Option.some.injEq] at h
        rw [← h] at hr
        rcases List.mem_cons.mp hr with h1 | h1
        · rw [h1]; exact List.get?_mem hg
        · exact ih rs hrec r h1

/-- `gatherRows` succeeds when every index is in range. -/
theorem gatherRows_of_bounds (rows : List M3ERow) :
    ∀ (idxs : List Nat), (∀ i ∈ idxs, i < rows.length) →
      ∃ out, gatherRows rows idxs = some out := by
  intro idxs
  induction idxs with
  | nil => intro _; exact ⟨[], rfl⟩
  | cons i is ih =>
    intro hb
    have hi : i < rows.length := hb i (List.mem_cons_self i is)
    rcases ih (fun j hj => hb j (List.mem_cons_of_mem i hj)) with ⟨out, hout⟩
    have hr : rows.get? i = some (rows.get ⟨i, hi⟩) := List.get?_eq_get hi
    refine ⟨rows.get ⟨i, hi⟩ :: out, ?_⟩
    simp only [gatherRows]
    rw [hr, hout]

/-- Every pair record produced by the filtering loop originates in a valid
row of the gathered records, with the positive text copied unchanged. -/
theorem m3ePairRecords_mem (imap : Option (List (String × String)))
    (task_name : String) :
    ∀ (records : List M3ERow) (l : List PairRecord),
      m3ePairRecords imap task_name records = some l →
      ∀ pr ∈ l, ∃ r ∈ records,
        is_valid_text r.text = true ∧ is_valid_text r.text_pos = true ∧
        pr.text_pos = cellStr r.text_pos := by
  intro records
  induction records with
  | nil =>
    intro l h pr hpr
    simp only [m3ePairRecords] at h
    cases h
    simp at hpr
  | cons record rest ih =>
    intro l h pr hpr
    simp only [m3ePairRecords] at h
    split at h
    case isTrue hval =>
      split at h
      case h_1 => cases h
      case h_2 text heq =>
        cases hrec : m3ePairRecords imap task_name rest with
        | none => rw [hrec] at h; cases h
        | some tail =>
          rw [hrec] at h
          simp only [Option.map_some', Option.some.injEq] at h
          rw [← h] at hpr
          rcases List.mem_cons.mp hpr with h1 | h1
          · rw [Bool.and_eq_true] at hval
            refine ⟨record, List.mem_cons_self record rest, ?_, ?_, ?_⟩
            · exact hval.1
            · exact hval.2
            · rw [h1]
          · rcases ih tail hrec pr h1 with ⟨r, hr, hv1, hv2, hv3⟩
            exact ⟨r, List.mem_cons_of_mem record hr, hv1, hv2, hv3⟩
    case isFalse hval =>
      rcases ih l h pr hpr with ⟨r, hr, hv1, hv2, hv3⟩
      exact ⟨r, List.mem_cons_of_mem record hr, hv1, hv2, hv3⟩

/-- When every gathered row fails validation, the filtering loop returns the
empty list (and in particular performs no instruction lookup). -/
theorem m3ePairRecords_all_invalid (imap : Option (List (String × String)))
    (task_name : String) :
    ∀ (records : List M3ERow),
      (∀ r ∈ records, (is_valid_text r.text && is_valid_text r.text_pos) = false) →
      m3ePairRecords imap task_name records = some [] := by
  intro records
  induction records with
  | nil => intro _; rfl
  | cons record rest ih =>
    intro hall
    simp only [m3ePairRecords]
    rw [if_neg]
    · exact ih fun r hr => hall r (List.mem_cons_of_mem record hr)
    · intro hc
      have := hall record (List.mem_cons_self record rest)
      rw [hc] at this
      cases this

/-- Whether a key is found in a per-dataset map depends only on the dataset
names: the same key resolves in `name_dataset_map` and in the instruction
map. -/
theorem dictLookup_name_isSome {β γ : Type} (datasets : List M3EHfDatsetWithInfo)
    (nm : String) (f : M3EHfDatsetWithInfo → β) (g : M3EHfDatsetWithInfo → γ)
    (h : (dictLookup (datasets.map fun d => (d.name, f d)) nm).isSome = true) :
    (dictLookup (datasets.map fun d => (d.name, g d)) nm).isSome = true := by
  unfold dictLookup at h ⊢
  rw [← List.map_reverse] at h ⊢
  rw [List.find?_map] at h ⊢
  simp only [Option.isSome_map'] at h ⊢
  have hsame :
      ((fun p : String × γ => p.1 == nm) ∘ fun d => (d.name, g d)) =
      ((fun p : String × β => p.1 == nm) ∘ fun d => (d.name, f d)) := by
    funext d; rfl
  rw [hsame]
  exact h

/-- The filtering loop succeeds whenever the instruction map is absent or
resolves the task name. -/
theorem m3ePairRecords_isSome (imap : Option (List (String × String)))
    (task_name : String)
    (hok : imap = none ∨ ∃ m, imap = some m ∧ (dictLookup m task_name).isSome = true) :
    ∀ records : List M3ERow,
      ∃ l, m3ePairRecords imap task_name records = some l := by
  intro records
  induction records with
  | nil => exact ⟨[], rfl⟩
  | cons record rest ih =>
    rcases ih with ⟨tail, htail⟩
    simp only [m3ePairRecords]
    by_cases hval : (is_valid_text record.text && is_valid_text record.text_pos) = true
    · rw [if_pos hval]
      split
      next heq =>
        exfalso
        rcases hok with hnone | ⟨m, hm, hsome⟩
        · subst hnone; simp [instrAnchor] at heq
        · subst hm
          unfold instrAnchor at heq
          rw [Option.map_eq_none'] at heq
          rw [heq] at hsome
          cases hsome
      next text heq =>
        rw [htail]
        exact ⟨_, rfl⟩
    · rw [if_neg hval]
      exact ⟨tail, htail⟩

/-- Well-formedness of one stored `TaskBatchIndex`: its task name resolves in
the name map and its member indices are in range of the resolved dataset.
`create_or_refresh_data` establishes this for every entry it stores. -/
def tbiBound (st : M3EDataset) (tbi : TaskBatchIndex) : Bool :=
  match dictLookup (name_dataset_map st.m3e_hf_datasets) tbi.name with
  | none => false
  | some rows => tbi.batch_index.all fun i => i < rows.length

/-- Well-formedness of a constructed `M3EDataset`: `random_index_list` is a
permutation of the batch positions (it is `list(RandomSampler(...))` over the
batch list) and every stored batch index is bounded. -/
def M3EDataset.Wf (st : M3EDataset) : Prop :=
  st.random_index_list.Perm (List.range st.task_batch_index_list.length) ∧
  ∀ tbi ∈ st.task_batch_index_list, tbiBound st tbi = true

/-- The total length of equally-sized chunks. -/
theorem sum_map_length_const {α : Type} (k : Nat) :
    ∀ L : List (List α), (∀ c ∈ L, c.length = k) →
      (L.map List.length).sum = L.length * k := by
  intro L
  induction L with
  | nil => intro _; simp
  | cons c cs ih =>
    intro h
    simp only [List.map_cons, List.sum_cons, List.length_cons]
    rw [h c (List.mem_cons_self c cs), ih fun d hd => h d (List.mem_cons_of_mem c hd)]
    ring

/-- Chunking a stream whose length `batch_size` divides loses nothing, so the
chunk count times `batch_size` is the stream length. -/
theorem batchLoop_count {α : Type} (batch_size : Nat) (hbs : 0 < batch_size)
    (xs : List α) (hdvd : batch_size ∣ xs.length) :
    (batchLoop batch_size [] xs).length * batch_size = xs.length := by
  have hj := batchLoop_join batch_size hbs xs [] (by simpa using hbs)
    (by simpa using hdvd)
  have hlen := congrArg List.length hj
  rw [List.length_flatten,
    sum_map_length_const batch_size _
      (fun c hc => batchLoop_mem_length batch_size xs [] c hc)] at hlen
  simpa using hlen

/-- Core coverage fact: in padding mode every index of a non-empty collection
occurs in some chunk of the drawn index stream. -/
theorem chunk_coverage (batch_size n : Nat) (hbs : 0 < batch_size)
    (hn : 0 < n) (perms : List (List Nat)) (hvp : ValidPerms n perms)
    (hen : numSamples batch_size false n ≤ perms.flatten.length) :
    ∀ j, j < n →
      ∃ c ∈ batchLoop batch_size []
          (samplerDraws perms (numSamples batch_size false n)), j ∈ c := by
  intro j hj
  obtain ⟨hge, hpos⟩ := numSamples_false_ge batch_size n hbs hn
  have hcov := samplerDraws_coverage n (numSamples batch_size false n) perms hvp
    hge hen j hj
  have hdlen : (samplerDraws perms (numSamples batch_size false n)).length =
      numSamples batch_size false n := samplerDraws_length _ perms hen
  have hjoin : (batchLoop batch_size []
      (samplerDraws perms (numSamples batch_size false n))).flatten =
      samplerDraws perms (numSamples batch_size false n) := by
    have hj2 := batchLoop_join batch_size hbs
      (samplerDraws perms (numSamples batch_size false n)) []
      (by simpa using hbs)
      (by rw [List.length_nil, Nat.zero_add, hdlen]
          exact numSamples_dvd batch_size false n)
    simpa using hj2
  have hmem : j ∈ (batchLoop batch_size []
      (samplerDraws perms (numSamples batch_size false n))).flatten := by
    rw [hjoin]; exact hcov
  rcases List.mem_flatten.mp hmem with ⟨c, hc, hjc⟩
  exact ⟨c, hc, hjc⟩

/-- One raw record of the medi data file (data.py lines 107-108): a task name
and the `query` / `pos` / `neg` string-list fields. -/
structure RawMediRecord where
  task_name : String
  query : List String
  pos : List String
  neg : List String
deriving DecidableEq, Inhabited

/-- Ingestion of one raw record by `MediDataset.__init__` (data.py lines
109-132).  In join mode (`with_prompt`) each field list is joined with the
configured separator; in no-prompt mode only the element at index 1 is taken,
where a missing element is a Python `IndexError`, modelled by `none`. -/
def mediIngestRecord (pair_or_triplet : String) (with_prompt : Bool)
    (join_with : String) (record : RawMediRecord) : Option MediRecord :=
  if with_prompt then
    if pair_or_triplet = "triplet" then
      some (.triplet { text := String.intercalate join_with record.query,
                       text_pos := String.intercalate join_with record.pos,
                       text_neg := String.intercalate join_with record.neg })
    else
      some (.pair { text := String.intercalate join_with record.query,
                    text_pos := String.intercalate join_with record.pos })
  else
    if pair_or_triplet = "triplet" then
      match record.query.get? 1, record.pos.get? 1, record.neg.get? 1 with
      | some q, some p, some n =>
        some (.triplet { text := q, text_pos := p, text_neg := n })
      | _, _, _ => none
    else
      match record.query.get? 1, record.pos.get? 1 with
      | some q, some p => some (.pair { text := q, text_pos := p })
      | _, _ => none

/-- Append a record to the entry of its task, creating the entry at the end
on first sight: the `defaultdict(list)` grouping of data.py line 133, which
preserves first-seen task insertion order. -/
def insertTask (acc : List (String × List MediRecord)) (name : String)
    (record : MediRecord) : List (String × List MediRecord) :=
  match acc with
  | [] => [(name, [record])]
  | (n, rs) :: rest =>
    if n = name then (n, rs ++ [record]) :: rest
    else (n, rs) :: insertTask rest name record

/-- Build `_task_records_map` from the tagged, ingested records. -/
def groupByTask (records : List (String × MediRecord)) :
    List (String × List MediRecord) :=
  records.foldl (fun acc p => insertTask acc p.1 p.2) []

/-- Ingest every raw record, tagging it with its task name (the loop of
data.py lines 107-133); fails when any record fails to ingest. -/
def mediIngestAll (pair_or_triplet : String) (with_prompt : Bool)
    (join_with : String) (medi_data : List RawMediRecord) :
    Option (List (String × MediRecord)) :=
  medi_data.mapM fun r =>
    (mediIngestRecord pair_or_triplet with_prompt join_with r).map
      fun record => (r.task_name, record)

/-- Python-level failures that `MediDataset.__init__` can propagate: the
`assert pair_or_triplet in (..)` (data.py line 104), the `ZeroDivisionError`
from `len(records) // 0`, the `ValueError` raised by
`torch.utils.data.RandomSampler` when its effective `num_samples` is not
positive, and the `IndexError` from no-prompt ingestion of a short field
list. -/
inductive PyInitError where
  | assertionError
  | zeroDivisionError
  | samplerValueError
  | indexError
deriving DecidableEq

/-- The `num_samples` computation with Python integer semantics (data.py
lines 142-144): `//` is floor division and `%` has the sign of the divisor;
a zero `batch_size` raises `ZeroDivisionError`. -/
def numSamplesPy (batch_size : Int) (drop_last : Bool) (n : Nat) :
    Except PyInitError Int :=
  if batch_size = 0 then .error .zeroDivisionError
  else
    let base := Int.fdiv n batch_size * batch_size
    .ok (if !drop_last && Int.fmod n batch_size != 0 then base + batch_size
         else base)

/-- The buffer loop with a Python integer batch size (a negative
`batch_size` never emits, because a list length never equals it). -/
def batchLoopPy {α : Type} (batch_size : Int) : List α → List α → List (List α)
  | _, [] => []
  | buffer, x :: xs =>
    if ((buffer ++ [x]).length : Int) = batch_size then
      (buffer ++ [x]) :: batchLoopPy batch_size [] xs
    else
      batchLoopPy batch_size (buffer ++ [x]) xs

/-- The per-task loop of `create_or_refresh_data` with Python integer
semantics, processing tasks in order and propagating the first failure.
`RandomSampler(records, num_samples=ns)` validates `ns > 0`. -/
def mediRefreshPyTasks (batch_size : Int) (drop_last : Bool) :
    List ((String × List MediRecord) × List (List Nat)) →
    Except PyInitError (List (List MediRecord))
  | [] => .ok []
  | ((_, records), perms) :: rest =>
    match numSamplesPy batch_size drop_last records.length with
    | .error e => .error e
    | .ok ns =>
      match (if ns = 0 then Except.ok [records]
             else if ns ≤ 0 then Except.error PyInitError.samplerValueError
             else Except.ok (batchLoopPy batch_size []
               ((samplerDraws perms ns.toNat).map
                 fun i => records.getD i default))) with
      | .error e => .error e
      | .ok batches =>
        match mediRefreshPyTasks batch_size drop_last rest with
        | .error e => .error e
        | .ok tail => .ok (batches ++ tail)

/-- `create_or_refresh_data` with Python integer semantics, ending with
`list(RandomSampler(self.batched_records))`, which raises `ValueError` when
the batch list is empty (its `num_samples` defaults to the length). -/
def mediRefreshPy (batch_size : Int) (drop_last : Bool)
    (tasks : List ((String × List MediRecord) × List (List Nat))) :
    Except PyInitError (List (List MediRecord)) :=
  match mediRefreshPyTasks batch_size drop_last tasks with
  | .error e => .error e
  | .ok batched_records =>
    if batched_records.length = 0 then .error .samplerValueError
    else .ok batched_records

/-- `MediDataset.__init__` (data.py lines 91-134) with Python integer
semantics: the pairing-mode assertion, then ingestion and grouping, then the
initial `create_or_refresh_data`.  The result is the batch list. -/
def mediInitPy (medi_data : List RawMediRecord) (batch_size : Int)
    (pair_or_triplet : String) (with_prompt : Bool) (join_with : String)
    (drop_last : Bool) (permsList : List (List (List Nat))) :
    Except PyInitError (List (List MediRecord)) :=
  if pair_or_triplet ≠ "pair" ∧ pair_or_triplet ≠ "triplet" then
    .error .assertionError
  else
    match mediIngestAll pair_or_triplet with_prompt join_with medi_data with
    | none => .error .indexError
    | some tagged =>
      mediRefreshPy batch_size drop_last
        ((groupByTask tagged).enum.map fun p => (p.2, permsList.getD p.1 []))

/-- `generate_batch` (models.py lines 68-71): repeatedly slice off the next
`batch_size` elements while the slice is non-empty.  A zero `batch_size`
yields nothing because the first slice is already empty. -/
def generate_batch {α : Type} : List α → Nat → List (List α)
  | _, 0 => []
  | [], _ + 1 => []
  | x :: xs, batch_size + 1 =>
    (x :: xs.take batch_size) :: generate_batch (xs.drop batch_size) (batch_size + 1)
termination_by l _ => l.length
decreasing_by
  simp only [List.length_drop, List.length_cons]
  omega

/-- Concrete pair record used by witnesses. -/
def exPair : MediRecord := .pair { text := "q", text_pos := "p" }

/-- Second concrete pair record used by witnesses. -/
def exPair2 : MediRecord := .pair { text := "q2", text_pos := "p2" }

/-- Concrete valid tabular row. -/
def exRowGood : M3ERow := { text := .str "q", text_pos := .str "p" }

/-- Second concrete valid tabular row. -/
def exRowGood2 : M3ERow := { text := .str "q2", text_pos := .str "p2" }

/-- Concrete invalid tabular row: whitespace-only anchor (spec scenario E). -/
def exRowBad : M3ERow := { text := .str "  ", text_pos := .str "ok" }

/-- Concrete one-row dataset with an instruction. -/
def exDsGood : M3EHfDatsetWithInfo :=
  { hf_dataset := [exRowGood], name := "t", instruction := "I: " }

/-- Concrete two-row dataset (spec scenario C). -/
def exDsTwo : M3EHfDatsetWithInfo :=
  { hf_dataset := [exRowGood, exRowGood2], name := "t", instruction := "" }

/-- Concrete dataset whose only row is invalid. -/
def exDsBad : M3EHfDatsetWithInfo :=
  { hf_dataset := [exRowBad], name := "t", instruction := "" }

/-- Concrete raw record of spec scenario D. -/
def exRawD : RawMediRecord :=
  { task_name := "t", query := ["instr", "q1"], pos := ["instr", "p1"],
    neg := ["instr", "n1"] }

/-- C3: with a positive batch size, every batch produced by
`create_or_refresh_data` contains exactly `batch_size` elements, except the
documented short-collection fallback batch of `MediDataset` (which holds a
whole record list); each `M3EDataset` `TaskBatchIndex` always carries exactly
`batch_size` member indices. -/
theorem batch_size_invariant (batch_size : Nat) (_hbs : 1 ≤ batch_size)
    (drop_last : Bool)
    (tasks : List ((String × List MediRecord) × List (List Nat)))
    (datasets : List (M3EHfDatsetWithInfo × List (List Nat))) :
    (∀ b ∈ medi_create_or_refresh batch_size drop_last tasks,
        (∃ t ∈ tasks, numSamples batch_size drop_last t.1.2.length = 0 ∧
          b = t.1.2) ∨
        b.length = batch_size) ∧
    (∀ tbi ∈ m3e_create_or_refresh batch_size drop_last datasets,
        tbi.batch_index.length = batch_size) := by
  constructor
  · intro b hb
    unfold medi_create_or_refresh at hb
    rcases List.mem_flatten.mp hb with ⟨bl, hbl, hbbl⟩
    rcases List.mem_map.mp hbl with ⟨t, ht, hteq⟩
    rw [← hteq] at hbbl
    simp only [mediTaskBatches] at hbbl
    split at hbbl
    next hz =>
      left
      refine ⟨t, ht, hz, ?_⟩
      simpa using hbbl
    next hz =>
      right
      exact batchLoop_mem_length batch_size _ [] b hbbl
  · intro tbi htbi
    unfold m3e_create_or_refresh at htbi
    rcases List.mem_flatten.mp htbi with ⟨bl, hbl, hbbl⟩
    rcases List.mem_map.mp hbl with ⟨t, ht, hteq⟩
    rw [← hteq] at hbbl
    simp only [m3eTaskBatchIndexes] at hbbl
    split at hbbl
    next => simp at hbbl
    next hz =>
      rcases List.mem_map.mp hbbl with ⟨c, hc, hceq⟩
      rw [← hceq]
      exact batchLoop_mem_length batch_size _ [] c hc

/-- Witness for C3 at a concrete instance. -/
theorem batch_size_invariant_witness :
    ({ name := "t", batch_index := [0] } : TaskBatchIndex).batch_index.length
      = 1 :=
  (batch_size_invariant 1 (by decide) true [(("t", [exPair]), [[0]])]
    [(exDsGood, [[0]])]).2 { name := "t", batch_index := [0] } (by decide)

/-- C2 counterexample: a 2-record collection with `batch_size = 4` and
`drop_last = true` makes `M3EDataset.create_or_refresh_data` emit no batch at
all (the `continue` on line 212 of data.py skips the collection), not the
claimed fallback batch with the entire record set. -/
theorem m3e_short_collection_dropped :
    m3e_create_or_refresh 4 true [(exDsTwo, [[0, 1]])] = [] := by decide

/-- C2 (amended): when the computed usable sample count of a collection is
zero, `MediDataset.create_or_refresh_data` emits exactly one fallback batch
holding the entire record set, and that batch reaches the global batch list;
`M3EDataset.create_or_refresh_data` instead contributes no batch for such a
collection. -/
theorem short_collection_fallback_amended (batch_size : Nat)
    (drop_last : Bool) (records : List MediRecord) (perms : List (List Nat))
    (dataset : M3EHfDatsetWithInfo) (perms2 : List (List Nat)) (name : String)
    (tasks : List ((String × List MediRecord) × List (List Nat)))
    (hmem : ((name, records), perms) ∈ tasks)
    (h1 : numSamples batch_size drop_last records.length = 0)
    (h2 : numSamples batch_size drop_last dataset.hf_dataset.length = 0) :
    mediTaskBatches batch_size drop_last records perms = [records] ∧
    records ∈ medi_create_or_refresh batch_size drop_last tasks ∧
    m3eTaskBatchIndexes batch_size drop_last dataset perms2 = [] := by
  have hfall : mediTaskBatches batch_size drop_last records perms = [records] := by
    simp only [mediTaskBatches]
    rw [if_pos h1]
  refine ⟨hfall, ?_, ?_⟩
  · unfold medi_create_or_refresh
    apply List.mem_flatten.mpr
    refine ⟨[records], ?_, List.mem_singleton.mpr rfl⟩
    apply List.mem_map.mpr
    exact ⟨((name, records), perms), hmem, hfall⟩
  · simp only [m3eTaskBatchIndexes]
    rw [if_pos h2]

/-- Witness for the amended C2 at a concrete instance (scenario C). -/
theorem short_collection_fallback_amended_witness :
    mediTaskBatches 4 true [exPair, exPair2] [] = [[exPair, exPair2]] ∧
    m3eTaskBatchIndexes 4 true exDsTwo [] = [] := by
  have h := short_collection_fallback_amended 4 true [exPair, exPair2] []
    exDsTwo [] "t" [(("t", [exPair, exPair2]), [])] (by decide) (by decide)
    (by decide)
  exact ⟨h.1, h.2.2⟩

/-- C9: MediDataset ingestion is a pure transform of each raw record.  In
join mode every field list is joined with the configured separator; in
no-prompt mode each text is exactly the element at index 1 of the
corresponding field list. -/
theorem medi_ingestion_modes (join_with : String) (record : RawMediRecord) :
    (mediIngestRecord "triplet" true join_with record =
      some (.triplet { text := String.intercalate join_with record.query,
                       text_pos := String.intercalate join_with record.pos,
                       text_neg := String.intercalate join_with record.neg })) ∧
    (mediIngestRecord "pair" true join_with record =
      some (.pair { text := String.intercalate join_with record.query,
                    text_pos := String.intercalate join_with record.pos })) ∧
    (∀ q p n, record.query[1]? = some q → record.pos[1]? = some p →
      record.neg[1]? = some n →
      mediIngestRecord "triplet" false join_with record =
        some (.triplet { text := q, text_pos := p, text_neg := n })) ∧
    (∀ q p, record.query[1]? = some q → record.pos[1]? = some p →
      mediIngestRecord "pair" false join_with record =
        some (.pair { text := q, text_pos := p })) := by
  refine ⟨?_, ?_, ?_, ?_⟩
  · simp [mediIngestRecord]
  · simp [mediIngestRecord]
  · intro q p n hq hp hn
    simp [mediIngestRecord, hq, hp, hn]
  · intro q p hq hp
    simp [mediIngestRecord, hq, hp]

/-- Witness for C9: spec scenario D under both modes. -/
theorem medi_ingestion_modes_witness :
    mediIngestRecord "triplet" true "\n" exRawD =
      some (.triplet { text := "instr\nq1", text_pos := "instr\np1",
                       text_neg := "instr\nn1" }) ∧
    mediIngestRecord "triplet" false "\n" exRawD =
      some (.triplet { text := "q1", text_pos := "p1", text_neg := "n1" }) := by
  constructor
  · exact (medi_ingestion_modes "\n" exRawD).1
  · exact (medi_ingestion_modes "\n" exRawD).2.2.1 "q1" "p1" "n1" rfl rfl rfl

/-- C10: for a positive batch size, `generate_batch` partitions its input:
the yielded lists concatenate back to the input in order, every yielded list
is non-empty, every yielded list except possibly the last has exactly
`batch_size` elements, and an empty input yields no batches. -/
theorem generate_batch_partitions {α : Type} (batch_size : Nat)
    (hbs : 1 ≤ batch_size) (data : List α) :
    (generate_batch data batch_size).flatten = data ∧
    (∀ b ∈ generate_batch data batch_size, b ≠ []) ∧
    (∀ b ∈ (generate_batch data batch_size).dropLast,
      b.length = batch_size) ∧
    (data = [] → generate_batch data batch_size = []) := by
  obtain ⟨k, rfl⟩ : ∃ k, batch_size = k + 1 := ⟨batch_size - 1, by omega⟩
  clear hbs
  suffices H : ∀ (m : Nat) (data : List α), data.length ≤ m →
      (generate_batch data (k + 1)).flatten = data ∧
      (∀ b ∈ generate_batch data (k + 1), b ≠ []) ∧
      (∀ b ∈ (generate_batch data (k + 1)).dropLast, b.length = k + 1) ∧
      (data = [] → generate_batch data (k + 1) = []) by
    exact H data.length data le_rfl
  intro m
  induction m with
  | zero =>
    intro data hlen
    have hnil : data = [] := List.eq_nil_of_length_eq_zero (by omega)
    subst hnil
    refine ⟨?_, ?_, ?_, ?_⟩ <;> simp [generate_batch]
  | succ m ih =>
    intro data hlen
    cases data with
    | nil =>
      refine ⟨?_, ?_, ?_, ?_⟩ <;> simp [generate_batch]
    | cons x xs =>
      simp only [generate_batch]
      have hdrop : (xs.drop k).length ≤ m := by
        simp only [List.length_drop]
        simp only [List.length_cons] at hlen
        omega
      obtain ⟨ih1, ih2, ih3, ih4⟩ := ih (xs.drop k) hdrop
      refine ⟨?_, ?_, ?_, ?_⟩
      · rw [List.flatten_cons, ih1, List.cons_append, List.take_append_drop]
      · intro b hb
        rcases List.mem_cons.mp hb with h1 | h1
        · rw [h1]; simp
        · exact ih2 b h1
      · cases hrec : generate_batch (xs.drop k) (k + 1) with
        | nil =>
          intro b hb
          simp at hb
        | cons c cs =>
          intro b hb
          rw [List.dropLast_cons₂] at hb
          rcases List.mem_cons.mp hb with h1 | h1
          · have hne : xs.drop k ≠ [] := by
              intro hnil
              rw [ih4 hnil] at hrec
              simp at hrec
            have hk : k < xs.length := by
              by_contra hc
              exact hne (List.drop_eq_nil_of_le (by omega))
            rw [h1]
            simp only [List.length_cons, List.length_take]
            omega
          · apply ih3
            rw [hrec]
            exact h1
      · intro h
        simp at h

/-- Witness for C10 at a concrete input. -/
theorem generate_batch_partitions_witness :
    (generate_batch [1, 2, 3] 2).flatten = [1, 2, 3] :=
  (generate_batch_partitions 2 (by decide) [1, 2, 3]).1

/-- C5: whenever validity filtering removes every record of a resolved batch,
`M3EDataset.__getitem__` raises the empty-batch error carrying the offending
raw records, and a successful lookup never returns an empty list. -/
theorem m3e_empty_batch_detection :
    (∀ (st : M3EDataset) (index : Nat) (l : List PairRecord),
        st.getItem index = .ok l → l ≠ []) ∧
    (∀ (st : M3EDataset) (index idx : Nat) (tbi : TaskBatchIndex)
        (rows records : List M3ERow),
        st.random_index_list.get? index = some idx →
        st.task_batch_index_list.get? idx = some tbi →
        dictLookup (name_dataset_map st.m3e_hf_datasets) tbi.name = some rows →
        gatherRows rows tbi.batch_index = some records →
        (∀ r ∈ records,
          (is_valid_text r.text && is_valid_text r.text_pos) = false) →
        st.getItem index = .error (.emptyBatch records)) := by
  constructor
  · intro st index l hok
    unfold M3EDataset.getItem at hok
    split at hok
    next => exact Except.noConfusion hok
    next idx h1 =>
      split at hok
      next => exact Except.noConfusion hok
      next tbi h2 =>
        split at hok
        next => exact Except.noConfusion hok
        next rows h3 =>
          split at hok
          next => exact Except.noConfusion hok
          next records h4 =>
            split at hok
            next => exact Except.noConfusion hok
            next prs h5 =>
              split at hok
              next => exact Except.noConfusion hok
              next hne =>
                injection hok with hok2
                rw [← hok2]
                intro hcon
                rw [hcon] at hne
                simp at hne
  · intro st index idx tbi rows records h1 h2 h3 h4 hinv
    have hpr := m3ePairRecords_all_invalid
      (task_instruction_map st.with_instruction st.m3e_hf_datasets) tbi.name
      records hinv
    simp only [M3EDataset.getItem, h1, h2, h3, h4, hpr]
    rfl

/-- Concrete dataset state whose only resolvable batch filters to empty. -/
def exM3EBad : M3EDataset :=
  { batch_size := 1, drop_last := true,
    m3e_hf_datasets := [exDsBad], with_instruction := false,
    task_batch_index_list := [{ name := "t", batch_index := [0] }],
    random_index_list := [0] }

/-- Witness for C5 at a concrete state. -/
theorem m3e_empty_batch_detection_witness :
    exM3EBad.getItem 0 = .error (.emptyBatch [exRowBad]) :=
  m3e_empty_batch_detection.2 exM3EBad 0 0
    { name := "t", batch_index := [0] } [exRowBad] [exRowBad]
    rfl rfl rfl rfl (by decide)

/-- Reference row transform written from the spec wording (spec 4.2): keep a
row exactly when both its anchor and positive cells are valid, drop invalid
rows silently and in order, and prepend the configured instruction string
(when one is configured) to the anchor text only, by plain concatenation. -/
def m3eRefTransform (instruction : Option String) (rows : List M3ERow) :
    List PairRecord :=
  (rows.filter fun r => is_valid_text r.text && is_valid_text r.text_pos).map
    fun r =>
      { text := match instruction with
                | some ins => ins ++ cellStr r.text
                | none => cellStr r.text,
        text_pos := cellStr r.text_pos }

/-- Unfolding of the reference transform on a kept row. -/
theorem m3eRefTransform_cons_pos (instruction : Option String) (r : M3ERow)
    (rest : List M3ERow)
    (hval : (is_valid_text r.text && is_valid_text r.text_pos) = true) :
    m3eRefTransform instruction (r :: rest) =
      { text := match instruction with
                | some ins => ins ++ cellStr r.text
                | none => cellStr r.text,
        text_pos := cellStr r.text_pos } :: m3eRefTransform instruction rest := by
  simp [m3eRefTransform, List.filter_cons, hval]

/-- Unfolding of the reference transform on a dropped row. -/
theorem m3eRefTransform_cons_neg (instruction : Option String) (r : M3ERow)
    (rest : List M3ERow)
    (hval : (is_valid_text r.text && is_valid_text r.text_pos) = false) :
    m3eRefTransform instruction (r :: rest) = m3eRefTransform instruction rest := by
  simp [m3eRefTransform, List.filter_cons, hval]

/-- Relation between the stored instruction map and the effective per-task
instruction: no map means no instruction; a present map must resolve the task
name to the instruction. -/
def InstrSpec (imap : Option (List (String × String))) (task_name : String)
    (instruction : Option String) : Prop :=
  (imap = none ∧ instruction = none) ∨
  (∃ m ins, imap = some m ∧ dictLookup m task_name = some ins ∧
    instruction = some ins)

/-- The source filtering loop computes exactly the reference transform. -/
theorem m3ePairRecords_eq_ref (imap : Option (List (String × String)))
    (task_name : String) (ins : Option String)
    (hspec : InstrSpec imap task_name ins) :
    ∀ rows, m3ePairRecords imap task_name rows =
      some (m3eRefTransform ins rows) := by
  intro rows
  rcases hspec with ⟨hm, hi⟩ | ⟨m, insv, hm, hlook, hi⟩
  · subst hm
    subst hi
    induction rows with
    | nil => rfl
    | cons r rest ih =>
      by_cases hval : (is_valid_text r.text && is_valid_text r.text_pos) = true
      · rw [m3eRefTransform_cons_pos _ _ _ hval]
        have hia : instrAnchor none task_name (cellStr r.text) =
          some (cellStr r.text) := rfl
        simp only [m3ePairRecords, if_pos hval, hia, ih, Option.map_some']
      · rw [m3eRefTransform_cons_neg _ _ _ (by simpa using hval)]
        simp only [m3ePairRecords, if_neg hval, ih]
  · subst hm
    subst hi
    induction rows with
    | nil => rfl
    | cons r rest ih =>
      by_cases hval : (is_valid_text r.text && is_valid_text r.text_pos) = true
      · rw [m3eRefTransform_cons_pos _ _ _ hval]
        have hia : instrAnchor (some m) task_name (cellStr r.text) =
            some (insv ++ cellStr r.text) := by
          simp [instrAnchor, hlook]
        simp only [m3ePairRecords, if_pos hval, hia, ih, Option.map_some']
      · rw [m3eRefTransform_cons_neg _ _ _ (by simpa using hval)]
        simp only [m3ePairRecords, if_neg hval, ih]

/-- C8: a resolved batch is returned as exactly the reference transform of
its raw rows, in order: a row is kept iff both cells are valid, invalid rows
are dropped without replacement, and the task instruction (when configured)
is prepended by concatenation to the anchor text only, with `text_pos`
unchanged. -/
theorem m3e_row_transform (st : M3EDataset) (index idx : Nat)
    (tbi : TaskBatchIndex) (rows records : List M3ERow) (ins : Option String)
    (h1 : st.random_index_list.get? index = some idx)
    (h2 : st.task_batch_index_list.get? idx = some tbi)
    (h3 : dictLookup (name_dataset_map st.m3e_hf_datasets) tbi.name = some rows)
    (h4 : gatherRows rows tbi.batch_index = some records)
    (h5 : InstrSpec (task_instruction_map st.with_instruction st.m3e_hf_datasets)
      tbi.name ins)
    (h6 : m3eRefTransform ins records ≠ []) :
    st.getItem index = .ok (m3eRefTransform ins records) := by
  have hpr := m3ePairRecords_eq_ref _ tbi.name ins h5 records
  simp only [M3EDataset.getItem, h1, h2, h3, h4, hpr]
  rw [if_neg]
  intro hc
  exact h6 (by simpa using hc)

/-- Concrete dataset state with one valid row and an instruction. -/
def exM3EGood : M3EDataset :=
  { batch_size := 1, drop_last := true,
    m3e_hf_datasets := [exDsGood], with_instruction := true,
    task_batch_index_list := [{ name := "t", batch_index := [0] }],
    random_index_list := [0] }

/-- Witness for C8 at a concrete state: the instruction is prepended to the
anchor only. -/
theorem m3e_row_transform_witness :
    exM3EGood.getItem 0 = .ok [{ text := "I: q", text_pos := "p" }] := by
  have h := m3e_row_transform exM3EGood 0 0 { name := "t", batch_index := [0] }
    [exRowGood] [exRowGood] (some "I: ") rfl rfl rfl rfl
    (Or.inr ⟨[("t", "I: ")], "I: ", rfl, rfl, rfl⟩) (by decide)
  exact h

/-- C1: task purity.  Every batch a `MediDataset` lookup returns is contained
in the record list of a single task of its map, and every batch an
`M3EDataset` lookup returns is drawn from the rows of a single named dataset;
no batch mixes two tasks. -/
theorem task_purity (st : MediDataset)
    (tasks : List ((String × List MediRecord) × List (List Nat)))
    (hbuild : st.batched_records =
      medi_create_or_refresh st.batch_size st.drop_last tasks)
    (hperms : ∀ t ∈ tasks, ValidPerms t.1.2.length t.2) :
    (∀ (index : Nat) (batch : List MediRecord),
        st.getItem index = some batch →
        ∃ t ∈ tasks, ∀ r ∈ batch, r ∈ t.1.2) ∧
    (∀ (mst : M3EDataset) (index : Nat) (prs : List PairRecord),
        mst.getItem index = .ok prs →
        ∃ d ∈ mst.m3e_hf_datasets, ∀ pr ∈ prs, ∃ row ∈ d.hf_dataset,
          is_valid_text row.text = true ∧ is_valid_text row.text_pos = true ∧
          pr.text_pos = cellStr row.text_pos) := by
  constructor
  · intro index batch hget
    have hmem : batch ∈ st.batched_records := by
      unfold MediDataset.getItem at hget
      split at hget
      next => exact Option.noConfusion hget
      next idx h1 => exact List.get?_mem hget
    rw [hbuild] at hmem
    unfold medi_create_or_refresh at hmem
    rcases List.mem_flatten.mp hmem with ⟨bl, hbl, hbbl⟩
    rcases List.mem_map.mp hbl with ⟨t, ht, hteq⟩
    rw [← hteq] at hbbl
    refine ⟨t, ht, ?_⟩
    simp only [mediTaskBatches] at hbbl
    split at hbbl
    next hz =>
      intro r hr
      have hbeq : batch = t.1.2 := by simpa using hbbl
      rw [hbeq] at hr
      exact hr
    next hz =>
      intro r hr
      rcases batchLoop_mem_of_mem st.batch_size _ [] batch hbbl r hr with
        h2 | h2
      · simp at h2
      · rcases List.mem_map.mp h2 with ⟨i, hi, hieq⟩
        have hlt : i < t.1.2.length :=
          samplerDraws_lt _ _ t.2 (hperms t ht) i hi
        rw [← hieq, List.getD_eq_getElem?_getD, List.getElem?_eq_getElem hlt,
          Option.getD_some]
        exact List.getElem_mem _
  · intro mst index prs hok
    unfold M3EDataset.getItem at hok
    split at hok
    next => exact Except.noConfusion hok
    next idx h1 =>
      split at hok
      next => exact Except.noConfusion hok
      next tbi h2 =>
        split at hok
        next => exact Except.noConfusion hok
        next rows h3 =>
          split at hok
          next => exact Except.noConfusion hok
          next records h4 =>
            split at hok
            next => exact Except.noConfusion hok
            next prs2 h5 =>
              split at hok
              next => exact Except.noConfusion hok
              next hne =>
                injection hok with hok2
                rcases name_dataset_map_mem _ _ _ h3 with ⟨d, hd, hdn, hdr⟩
                refine ⟨d, hd, ?_⟩
                intro pr hpr
                rw [← hok2] at hpr
                rcases m3ePairRecords_mem _ _ records prs2 h5 pr hpr with
                  ⟨row, hrow, hv1, hv2, hv3⟩
                refine ⟨row, ?_, hv1, hv2, hv3⟩
                rw [hdr]
                exact gatherRows_mem rows _ records h4 row hrow

/-- Concrete constructed `MediDataset` state. -/
def exMediSt : MediDataset :=
  { batch_size := 1, drop_last := true,
    task_records_map := [("t", [exPair])],
    batched_records := [[exPair]],
    random_index_list := [0] }

/-- Witness for C1 at a concrete constructed state. -/
theorem task_purity_witness :
    ∃ t ∈ [(("t", [exPair]), [[0]])], ∀ r ∈ [exPair], r ∈ t.1.2 :=
  (task_purity exMediSt [(("t", [exPair]), [[0]])] (by decide)
    (by
      intro t ht
      simp only [List.mem_singleton] at ht
      subst ht
      intro p hp
      simp only [List.mem_singleton] at hp
      subst hp
      decide)).1 0 [exPair] rfl

/-- C4: coverage without loss in padding mode.  With `drop_last = false` and
a non-empty collection, every record of that collection appears in some batch
of the plan of a single `create_or_refresh_data` call; a collection smaller
than one batch yields exactly one full batch containing all its records
(with repetitions); every row index of a non-empty `M3EDataset` collection
appears in some `TaskBatchIndex` of that collection. -/
theorem coverage_padding_mode (batch_size : Nat) (hbs : 1 ≤ batch_size)
    (name : String) (records : List MediRecord) (perms : List (List Nat))
    (tasks : List ((String × List MediRecord) × List (List Nat)))
    (hmem : ((name, records), perms) ∈ tasks)
    (hrec : records ≠ [])
    (hvp : ValidPerms records.length perms)
    (hen : numSamples batch_size false records.length ≤ perms.flatten.length)
    (dataset : M3EHfDatsetWithInfo) (perms2 : List (List Nat))
    (datasets : List (M3EHfDatsetWithInfo × List (List Nat)))
    (hmem2 : (dataset, perms2) ∈ datasets)
    (hds : dataset.hf_dataset ≠ [])
    (hvp2 : ValidPerms dataset.hf_dataset.length perms2)
    (hen2 : numSamples batch_size false dataset.hf_dataset.length ≤
      perms2.flatten.length) :
    (∀ r ∈ records,
      ∃ b ∈ medi_create_or_refresh batch_size false tasks, r ∈ b) ∧
    (records.length < batch_size →
      ∃ b, mediTaskBatches batch_size false records perms = [b] ∧
        b.length = batch_size ∧ ∀ r ∈ records, r ∈ b) ∧
    (∀ j < dataset.hf_dataset.length,
      ∃ tbi ∈ m3e_create_or_refresh batch_size false datasets,
        j ∈ tbi.batch_index ∧ tbi.name = dataset.name) := by
  have hbs0 : 0 < batch_size := hbs
  have hn : 0 < records.length := List.length_pos.mpr hrec
  have hns0 : numSamples batch_size false records.length ≠ 0 := by
    have := (numSamples_false_ge batch_size records.length hbs0 hn).2
    omega
  have htb : mediTaskBatches batch_size false records perms =
      (batchLoop batch_size []
        (samplerDraws perms (numSamples batch_size false records.length))).map
        (List.map fun i => records.getD i default) := by
    simp only [mediTaskBatches]
    rw [if_neg hns0]
    have hswap := batchLoop_map (fun i => records.getD i default) batch_size
      (samplerDraws perms (numSamples batch_size false records.length)) []
    simp only [List.map_nil] at hswap
    rw [hswap]
  have hcover : ∀ r ∈ records,
      ∃ b ∈ mediTaskBatches batch_size false records perms, r ∈ b := by
    intro r hr
    rcases List.mem_iff_get.mp hr with ⟨⟨i, hi⟩, hget⟩
    rcases chunk_coverage batch_size records.length hbs0 hn perms hvp hen i hi
      with ⟨c, hc, hic⟩
    refine ⟨c.map fun i => records.getD i default, ?_, ?_⟩
    · rw [htb]
      exact List.mem_map.mpr ⟨c, hc, rfl⟩
    · apply List.mem_map.mpr
      refine ⟨i, hic, ?_⟩
      rw [List.getD_eq_getElem?_getD, List.getElem?_eq_getElem hi,
        Option.getD_some, ← hget]
      rfl
  refine ⟨?_, ?_, ?_⟩
  · intro r hr
    rcases hcover r hr with ⟨b, hb, hrb⟩
    refine ⟨b, ?_, hrb⟩
    unfold medi_create_or_refresh
    apply List.mem_flatten.mpr
    refine ⟨mediTaskBatches batch_size false records perms, ?_, hb⟩
    exact List.mem_map.mpr ⟨((name, records), perms), hmem, rfl⟩
  · intro hsmall
    have hnseq : numSamples batch_size false records.length = batch_size :=
      numSamples_false_small batch_size records.length hn hsmall
    have hdlen :
        (samplerDraws perms (numSamples batch_size false records.length)).length
          = batch_size := by
      rw [samplerDraws_length _ perms hen, hnseq]
    have hcnt := batchLoop_count batch_size hbs0
      (samplerDraws perms (numSamples batch_size false records.length))
      (by rw [hdlen])
    rw [hdlen] at hcnt
    have hone : (batchLoop batch_size []
        (samplerDraws perms
          (numSamples batch_size false records.length))).length = 1 := by
      have hc1 : (batchLoop batch_size []
          (samplerDraws perms
            (numSamples batch_size false records.length))).length * batch_size
          = 1 * batch_size := by
        rw [hcnt, Nat.one_mul]
      exact Nat.eq_of_mul_eq_mul_right hbs0 hc1
    rcases List.length_eq_one.mp hone with ⟨c, hceq⟩
    refine ⟨c.map fun i => records.getD i default, ?_, ?_, ?_⟩
    · rw [htb, hceq]
      rfl
    · rw [List.length_map]
      exact batchLoop_mem_length batch_size _ [] c
        (hceq ▸ List.mem_singleton.mpr rfl)
    · intro r hr
      rcases hcover r hr with ⟨b, hb, hrb⟩
      rw [htb, hceq] at hb
      simp only [List.map_cons, List.map_nil, List.mem_singleton] at hb
      rw [← hb]
      exact hrb
  · intro j hj
    have hn2 : 0 < dataset.hf_dataset.length := List.length_pos.mpr hds
    have hns2 : numSamples batch_size false dataset.hf_dataset.length ≠ 0 := by
      have := (numSamples_false_ge batch_size dataset.hf_dataset.length hbs0
        hn2).2
      omega
    rcases chunk_coverage batch_size dataset.hf_dataset.length hbs0 hn2 perms2
      hvp2 hen2 j hj with ⟨c, hc, hjc⟩
    refine ⟨{ name := dataset.name, batch_index := c }, ?_, hjc, rfl⟩
    unfold m3e_create_or_refresh
    apply List.mem_flatten.mpr
    refine ⟨m3eTaskBatchIndexes batch_size false dataset perms2, ?_, ?_⟩
    · exact List.mem_map.mpr ⟨(dataset, perms2), hmem2, rfl⟩
    · simp only [m3eTaskBatchIndexes]
      rw [if_neg hns2]
      exact List.mem_map.mpr ⟨c, hc, rfl⟩

/-- Witness for C4: a 1-record collection with `batch_size = 2` in padding
mode still reaches a batch. -/
theorem coverage_padding_mode_witness :
    ∃ b ∈ medi_create_or_refresh 2 false [(("t", [exPair]), [[0], [0]])],
      exPair ∈ b :=
  (coverage_padding_mode 2 (by decide) "t" [exPair] [[0], [0]]
    [(("t", [exPair]), [[0], [0]])] (by decide) (by decide)
    (by
      intro p hp
      simp only [List.mem_cons, List.mem_singleton] at hp
      rcases hp with hp | hp | hp
      · subst hp; decide
      · subst hp; decide
      · cases hp)
    (by decide) exDsGood [[0], [0]] [(exDsGood, [[0], [0]])] (by decide)
    (by decide)
    (by
      intro p hp
      simp only [List.mem_cons, List.mem_singleton] at hp
      rcases hp with hp | hp | hp
      · subst hp; decide
      · subst hp; decide
      · cases hp)
    (by decide)).1 exPair (by decide)

/-- C7 counterexample: position 0 is inside `[0, count())` of this
constructed `M3EDataset` (its length is 1), yet `__getitem__(0)` raises the
empty-batch `ValueError` instead of returning a batch, so an in-range lookup
does not always succeed. -/
theorem m3e_in_range_lookup_can_fail :
    0 < exM3EBad.len ∧
    exM3EBad.getItem 0 = .error (.emptyBatch [exRowBad]) := by
  constructor
  · decide
  · rfl

/-- C7 (amended): lookups fail for every position outside `[0, count())`
(with the index error); every in-range `MediDataset` lookup returns a batch
without error; an in-range `M3EDataset` lookup either returns a non-empty
batch or fails with the empty-batch error when validation removes every
record of the resolved batch. -/
theorem positional_lookup_amended :
    (∀ st : MediDataset,
      st.random_index_list.Perm (List.range st.batched_records.length) →
      ∀ index : Nat,
        (index < st.len → ∃ b, st.getItem index = some b) ∧
        (st.len ≤ index → st.getItem index = none)) ∧
    (∀ st : M3EDataset, st.Wf → ∀ index : Nat,
        (st.len ≤ index → st.getItem index = .error .indexError) ∧
        (index < st.len →
          (∃ l, st.getItem index = .ok l ∧ l ≠ []) ∨
          (∃ records, st.getItem index = .error (.emptyBatch records)))) := by
  constructor
  · intro st hperm index
    have hlen : st.random_index_list.length = st.batched_records.length := by
      simpa using hperm.length_eq
    constructor
    · intro hidx
      have hidx2 : index < st.random_index_list.length := by
        rw [hlen]; exact hidx
      have hg := List.get?_eq_get hidx2
      set idx := st.random_index_list.get ⟨index, hidx2⟩ with hidxdef
      have hmem : idx ∈ st.random_index_list := List.get_mem _ _ _
      have hlt : idx < st.batched_records.length := by
        have h2 := hperm.mem_iff.mp hmem
        simpa using h2
      have hb := List.get?_eq_get hlt
      refine ⟨st.batched_records.get ⟨idx, hlt⟩, ?_⟩
      simp only [MediDataset.getItem, hg]
      exact hb
    · intro hge
      have hnone : st.random_index_list.get? index = none :=
        List.get?_eq_none.mpr (by rw [hlen]; exact hge)
      simp only [MediDataset.getItem, hnone]
  · intro st hwf index
    obtain ⟨hperm, hbound⟩ := hwf
    have hlen : st.random_index_list.length =
        st.task_batch_index_list.length := by
      simpa using hperm.length_eq
    constructor
    · intro hge
      have hnone : st.random_index_list.get? index = none :=
        List.get?_eq_none.mpr (by rw [hlen]; exact hge)
      simp only [M3EDataset.getItem, hnone]
    · intro hlt0
      have hidx2 : index < st.random_index_list.length := by
        rw [hlen]; exact hlt0
      have hg := List.get?_eq_get hidx2
      set idx := st.random_index_list.get ⟨index, hidx2⟩ with hidxdef
      have hmem : idx ∈ st.random_index_list := List.get_mem _ _ _
      have hltn : idx < st.task_batch_index_list.length := by
        have h2 := hperm.mem_iff.mp hmem
        simpa using h2
      have htbi := List.get?_eq_get hltn
      set tbi := st.task_batch_index_list.get ⟨idx, hltn⟩ with htbidef
      have htmem : tbi ∈ st.task_batch_index_list := List.get_mem _ _ _
      have hb := hbound tbi htmem
      unfold tbiBound at hb
      cases hlook : dictLookup (name_dataset_map st.m3e_hf_datasets) tbi.name
        with
      | none => rw [hlook] at hb; cases hb
      | some rows =>
        rw [hlook] at hb
        have hball : ∀ i ∈ tbi.batch_index, i < rows.length := by
          intro i hi
          have h3 := List.all_eq_true.mp hb i hi
          simpa using h3
        rcases gatherRows_of_bounds rows tbi.batch_index hball with
          ⟨records, hrec⟩
        have hnds : (dictLookup (name_dataset_map st.m3e_hf_datasets)
            tbi.name).isSome = true := by
          rw [hlook]; rfl
        have hinsok :
            task_instruction_map st.with_instruction st.m3e_hf_datasets
              = none ∨
            ∃ m, task_instruction_map st.with_instruction st.m3e_hf_datasets
              = some m ∧ (dictLookup m tbi.name).isSome = true := by
          unfold task_instruction_map
          cases st.with_instruction with
          | false => exact Or.inl rfl
          | true =>
            rw [if_pos rfl]
            exact Or.inr
              ⟨st.m3e_hf_datasets.map fun d => (d.name, d.instruction), rfl,
                dictLookup_name_isSome st.m3e_hf_datasets tbi.name
                  (fun d => d.hf_dataset) (fun d => d.instruction) hnds⟩
        rcases m3ePairRecords_isSome
          (task_instruction_map st.with_instruction st.m3e_hf_datasets)
          tbi.name hinsok records with ⟨l, hl⟩
        by_cases hemp : l.isEmpty = true
        · right
          refine ⟨records, ?_⟩
          simp only [M3EDataset.getItem, hg, htbi, hlook, hrec, hl]
          rw [if_pos hemp]
        · left
          refine ⟨l, ?_, ?_⟩
          · simp only [M3EDataset.getItem, hg, htbi, hlook, hrec, hl]
            rw [if_neg hemp]
          · intro hc
            rw [hc] at hemp
            simp at hemp

/-- Witness for the amended C7 at a concrete `MediDataset` state of length
one: position 0 resolves, position 1 is rejected. -/
theorem positional_lookup_amended_witness :
    (∃ b, exMediSt.getItem 0 = some b) ∧ exMediSt.getItem 1 = none := by
  have h := positional_lookup_amended.1 exMediSt (by decide)
  exact ⟨(h 0).1 (by decide), (h 1).2 (by decide)⟩

/-- C6 counterexample: `MediDataset` constructed with `batch_size = -2`
(`drop_last = false`, one task of one record) completes without raising
anything: the collection is shorter than `|batch_size|`, so the Python
`num_samples` computation yields 0 and the fallback branch stores the whole
collection as one batch.  A non-positive batch size therefore does not fail
with an invalid-configuration error. -/
theorem medi_negative_batch_size_constructs :
    mediInitPy [exRawD] (-2) "triplet" true "\n" false [[[0]]] =
      .ok [[.triplet { text := "instr\nq1", text_pos := "instr\np1",
                       text_neg := "instr\nn1" }]] := by
  rfl

/-- `numSamplesPy` fails only with the division-by-zero error. -/
theorem numSamplesPy_error (batch_size : Int) (drop_last : Bool) (n : Nat)
    (e : PyInitError) (h : numSamplesPy batch_size drop_last n = .error e) :
    e = .zeroDivisionError := by
  unfold numSamplesPy at h
  split at h
  · injection h with h2
    exact h2.symm
  · cases h

/-- The per-task refresh loop never raises the pairing-mode assertion. -/
theorem mediRefreshPyTasks_no_assert (batch_size : Int) (drop_last : Bool) :
    ∀ tasks, mediRefreshPyTasks batch_size drop_last tasks ≠
      Except.error PyInitError.assertionError := by
  intro tasks
  induction tasks with
  | nil => intro h; cases h
  | cons t rest ih =>
    obtain ⟨⟨nm, records⟩, perms⟩ := t
    intro h
    simp only [mediRefreshPyTasks] at h
    split at h
    next e heq =>
      injection h with h2
      rw [h2] at heq
      have := numSamplesPy_error batch_size drop_last records.length _ heq
      cases this
    next ns heq =>
      split at h
      next e2 heq2 =>
        injection h with h2
        rw [h2] at heq2
        split at heq2
        · cases heq2
        · split at heq2
          · injection heq2 with h3
            cases h3
          · cases heq2
      next batches heq2 =>
        split at h
        next e3 heq3 =>
          injection h with h2
          rw [h2] at heq3
          exact ih heq3
        next tail heq3 => cases h

/-- The whole refresh never raises the pairing-mode assertion. -/
theorem mediRefreshPy_no_assert (batch_size : Int) (drop_last : Bool)
    (tasks : List ((String × List MediRecord) × List (List Nat))) :
    mediRefreshPy batch_size drop_last tasks ≠
      Except.error PyInitError.assertionError := by
  unfold mediRefreshPy
  split
  next e heq =>
    intro h
    injection h with h2
    rw [h2] at heq
    exact mediRefreshPyTasks_no_assert batch_size drop_last tasks heq
  next batched heq =>
    split
    · intro h
      injection h with h2
      cases h2
    · intro h
      cases h

/-- C6 (amended): `MediDataset` performs no batch-size validation.  The only
construction-time configuration failure raised by its own code is the
pairing-mode assertion, which fires exactly when `pair_or_triplet` is neither
"pair" nor "triplet"; in particular, a non-positive `batch_size` never
produces an invalid-configuration error (and construction can even succeed
with a negative batch size). -/
theorem medi_config_check_is_mode_assertion (medi_data : List RawMediRecord)
    (batch_size : Int) (pair_or_triplet : String) (with_prompt : Bool)
    (join_with : String) (drop_last : Bool)
    (permsList : List (List (List Nat))) :
    mediInitPy medi_data batch_size pair_or_triplet with_prompt join_with
      drop_last permsList = .error .assertionError ↔
    (pair_or_triplet ≠ "pair" ∧ pair_or_triplet ≠ "triplet") := by
  unfold mediInitPy
  split
  next hmode => exact iff_of_true rfl hmode
  next hmode =>
    constructor
    · intro h
      exfalso
      split at h
      · simp at h
      · exact mediRefreshPy_no_assert _ _ _ h
    · intro hc
      exact absurd hc hmode
